import Mathlib

/-!
Verification of the innbox inbound-ingestion, threading and fan-out core.

Shallow embedding of:
- `app/lib/threading.server.ts` (subject normalization, reference extraction,
  thread resolution, thread-stat updates),
- `app/routes/api.webhook.email.ts` (ingestion gateway),
- `app/lib/eventBus.server.ts` (in-memory pub/sub bus),
- `app/hooks/useInboxSSE.ts` (client reconnect state machine).

Strings are modelled as `List Char` where character-level work matters.
Timestamps (stored in the DB as `YYYY-MM-DD HH:MM:SS` strings, compared
lexicographically by SQL and via `Date.getTime()` in JS) are modelled as
`Nat` seconds; both orders agree with numeric order on that format.
External collaborators (HMAC-SHA256, JSON.parse) are parameters of the
gateway model, as the repository treats them as opaque primitives.
-/

namespace Innbox

/-- Model of a whitespace character (JS `\s` / `trim`). -/
def isWs (c : Char) : Bool := c.isWhitespace

/-- ASCII lowercasing of one character, the fragment of JS
`String.prototype.toLowerCase` exercised by the threading code. -/
def toLowerChar (c : Char) : Char :=
  if 65 ≤ c.toNat ∧ c.toNat ≤ 90 then Char.ofNat (c.toNat + 32) else c

/-- `s.toLowerCase()` on the character list of a string. -/
def lowerStr (s : List Char) : List Char := s.map toLowerChar

/-- Leading-whitespace removal (half of JS `trim`). -/
def trimLeft (s : List Char) : List Char := s.dropWhile isWs

/-- Trailing-whitespace removal (the other half of JS `trim`). -/
def trimRight (s : List Char) : List Char := (s.reverse.dropWhile isWs).reverse

/-- JS `String.prototype.trim`. -/
def trimStr (s : List Char) : List Char := trimRight (trimLeft s)

/-- Case-insensitive literal match: drops the word `w` (given lowercase)
from the front of `s`, comparing lowercased characters, as the
case-insensitive regex alternatives do. -/
def dropWordCI : List Char → List Char → Option (List Char)
  | [], s => some s
  | _ :: _, [] => none
  | w :: ws, c :: cs => if toLowerChar c = w then dropWordCI ws cs else none

/-- The `:\s*` tail of the reply-marker regex: a colon followed by
greedily consumed whitespace. -/
def afterColon : List Char → Option (List Char)
  | c :: r => if c = ':' then some (r.dropWhile isWs) else none
  | [] => none

/-- The closing `\]` of the bracketed counter. -/
def closeBracket : List Char → Option (List Char)
  | c2 :: r3 => if c2 = ']' then some r3 else none
  | [] => none

/-- The optional bracketed counter `\[\d+\]` of the reply-marker regex:
an opening bracket, one or more digits (greedy), a closing bracket. -/
def dropBracket : List Char → Option (List Char)
  | c :: r =>
    if c = '[' then
      if r.takeWhile Char.isDigit = [] then none
      else closeBracket (r.dropWhile Char.isDigit)
    else none
  | [] => none

/-- `(\[\d+\])?:\s*` with regex backtracking: try the bracketed counter
followed by a colon first, fall back to a bare colon. -/
def afterWord (s : List Char) : Option (List Char) :=
  match dropBracket s with
  | some r =>
    match afterColon r with
    | some r2 => some r2
    | none => afterColon s
  | none => afterColon s

/-- One regex alternative: the word, then `(\[\d+\])?:\s*`. -/
def tryWord (w s : List Char) : Option (List Char) :=
  (dropWordCI w s).bind afterWord

/-- The alternatives of `/^(re|fwd?|fw|aw|sv|r|rif|tr|doorst)/i`, in the
order a backtracking engine tries them (`fwd?` expands to `fwd` then
`fw`, and the literal `fw` alternative is redundant after that). -/
def leadWords : List (List Char) :=
  [['r', 'e'], ['f', 'w', 'd'], ['f', 'w'], ['a', 'w'], ['s', 'v'],
   ['r'], ['r', 'i', 'f'], ['t', 'r'], ['d', 'o', 'o', 'r', 's', 't']]

/-- One application of
`normalized.replace(/^(re|fwd?|fw|aw|sv|r|rif|tr|doorst)(\[\d+\])?:\s*/i, '')`:
`some rest` when the regex matches (with `rest` the text after the
removed span), `none` when it does not. -/
def matchLead (s : List Char) : Option (List Char) :=
  leadWords.findSome? (fun w => tryWord w s)

theorem length_dropWhile_le (p : Char → Bool) (l : List Char) :
    (l.dropWhile p).length ≤ l.length := by
  exact (List.dropWhile_sublist _).length_le

theorem dropWordCI_length {w s r : List Char} (h : dropWordCI w s = some r) :
    r.length ≤ s.length := by
  induction w generalizing s r with
  | nil =>
    simp only [dropWordCI, Option.some_inj] at h
    exact h ▸ Nat.le_refl _
  | cons c cs ih =>
    cases s with
    | nil => simp [dropWordCI] at h
    | cons d ds =>
      simp only [dropWordCI] at h
      split at h
      · exact Nat.le_trans (ih h) (Nat.le_succ _)
      · exact absurd h (by simp)

theorem afterColon_length {s r : List Char} (h : afterColon s = some r) :
    r.length < s.length := by
  cases s with
  | nil => simp [afterColon] at h
  | cons c cs =>
    simp only [afterColon] at h
    split at h
    · cases h
      exact Nat.lt_succ_of_le (length_dropWhile_le _ _)
    · exact absurd h (by simp)

theorem closeBracket_length {s r : List Char} (h : closeBracket s = some r) :
    r.length < s.length := by
  cases s with
  | nil => simp [closeBracket] at h
  | cons c cs =>
    simp only [closeBracket] at h
    split at h
    · cases h
      exact Nat.lt_succ_self _
    · exact absurd h (by simp)

theorem dropBracket_length {s r : List Char} (h : dropBracket s = some r) :
    r.length < s.length := by
  cases s with
  | nil => simp [dropBracket] at h
  | cons c cs =>
    simp only [dropBracket] at h
    split at h
    · split at h
      · exact absurd h (by simp)
      · have h1 := closeBracket_length h
        have h2 := length_dropWhile_le Char.isDigit cs
        simp only [List.length_cons]
        omega
    · exact absurd h (by simp)

theorem afterWord_length {s r : List Char} (h : afterWord s = some r) :
    r.length < s.length := by
  unfold afterWord at h
  split at h
  · rename_i b hb
    split at h
    · rename_i r2 hr2
      cases h
      exact Nat.lt_trans (afterColon_length hr2) (dropBracket_length hb)
    · exact afterColon_length h
  · exact afterColon_length h

theorem tryWord_length {w s r : List Char} (h : tryWord w s = some r) :
    r.length < s.length := by
  unfold tryWord at h
  cases hw : dropWordCI w s with
  | none => rw [hw] at h; simp at h
  | some m =>
    rw [hw] at h
    rw [Option.some_bind] at h
    exact Nat.lt_of_lt_of_le (afterWord_length h) (dropWordCI_length hw)

theorem matchLead_length {s r : List Char} (h : matchLead s = some r) :
    r.length < s.length := by
  unfold matchLead at h
  obtain ⟨w, _, hw⟩ := List.exists_of_findSome?_eq_some h
  exact tryWord_length hw

/-- The do/while loop of `normalizeSubject` with an explicit fuel bound
(every regex removal strictly shortens the string, so `s.length + 1`
steps always reach the fixpoint; see `stripLeadsF_congr`). -/
def stripLeadsF : Nat → List Char → List Char
  | 0, s => s
  | fuel + 1, s =>
    match matchLead s with
    | some t => stripLeadsF fuel t
    | none => s

/-- The do/while loop of `normalizeSubject`: keep removing a leading
reply/forward marker until the string no longer changes. -/
def stripLeads (s : List Char) : List Char := stripLeadsF (s.length + 1) s

theorem stripLeadsF_congr {s : List Char} {f1 f2 : Nat} (h1 : s.length < f1)
    (h2 : s.length < f2) : stripLeadsF f1 s = stripLeadsF f2 s := by
  induction f1 generalizing s f2 with
  | zero => omega
  | succ f1 ih =>
    cases f2 with
    | zero => omega
    | succ f2 =>
      simp only [stripLeadsF]
      cases hm : matchLead s with
      | none => rfl
      | some t =>
        have ht := matchLead_length hm
        exact ih (by omega) (by omega)

theorem stripLeads_of_none {s : List Char} (h : matchLead s = none) :
    stripLeads s = s := by
  unfold stripLeads stripLeadsF
  rw [h]

theorem stripLeads_of_some {s t : List Char} (h : matchLead s = some t) :
    stripLeads s = stripLeads t := by
  have ht := matchLead_length h
  unfold stripLeads
  conv_lhs => rw [show s.length + 1 = s.length + 1 from rfl]
  rw [show stripLeadsF (s.length + 1) s = stripLeadsF s.length t by
    simp only [stripLeadsF]; rw [h]]
  exact stripLeadsF_congr (by omega) (by omega)

/-- `normalizeSubject` from `threading.server.ts` on character lists:
lowercase, trim, strip reply/forward markers to a fixpoint, trim again. -/
def normalizeSubjectL (s : List Char) : List Char :=
  trimStr (stripLeads (trimStr (lowerStr s)))

/-- `normalizeSubject(subject)`: `null`/`undefined` (modelled `none`) and
the empty string short-circuit to `''`. -/
def normalizeSubject : Option String → String
  | none => ""
  | some s => if s.data = [] then "" else (normalizeSubjectL s.data).asString

theorem matchLead_stripLeads (s : List Char) : matchLead (stripLeads s) = none := by
  generalize hn : s.length = n
  induction n using Nat.strong_induction_on generalizing s with
  | _ n ih =>
    cases hm : matchLead s with
    | none => rw [stripLeads_of_none hm]; exact hm
    | some t =>
      rw [stripLeads_of_some hm]
      exact ih t.length (hn ▸ matchLead_length hm) t rfl

/-- A string whose leading whitespace has already been removed. -/
def noWsHead (l : List Char) : Prop := l.dropWhile isWs = l

theorem dropWhile_self_eq (p : Char → Bool) (l : List Char) :
    (l.dropWhile p).dropWhile p = l.dropWhile p := by
  induction l with
  | nil => rfl
  | cons c cs ih =>
    by_cases hp : p c
    · simp [List.dropWhile_cons, hp, ih]
    · simp [List.dropWhile_cons, hp]

theorem noWsHead_dropWhile (l : List Char) : noWsHead (l.dropWhile isWs) :=
  dropWhile_self_eq isWs l

theorem noWsHead_append {a v : List Char} (h : noWsHead (a ++ v)) : noWsHead a := by
  cases a with
  | nil => rfl
  | cons c a' =>
    unfold noWsHead at h ⊢
    by_cases hc : isWs c
    · exfalso
      rw [List.cons_append, List.dropWhile_cons_of_pos hc] at h
      have := congrArg List.length h
      have hle := length_dropWhile_le isWs (a' ++ v)
      simp only [List.length_cons] at this
      omega
    · rw [List.dropWhile_cons_of_neg hc]

theorem trimRight_append_eq (l : List Char) : ∃ v, trimRight l ++ v = l := by
  obtain ⟨t, ht⟩ := List.dropWhile_suffix (l := l.reverse) isWs
  refine ⟨t.reverse, ?_⟩
  unfold trimRight
  have := congrArg List.reverse ht
  simpa [List.reverse_append] using this

theorem noWsHead_trimRight {l : List Char} (h : noWsHead l) : noWsHead (trimRight l) := by
  obtain ⟨v, hv⟩ := trimRight_append_eq l
  exact noWsHead_append (hv ▸ h)

theorem afterColon_noWsHead {s t : List Char} (h : afterColon s = some t) : noWsHead t := by
  cases s with
  | nil => simp [afterColon] at h
  | cons c cs =>
    simp only [afterColon] at h
    split at h
    · cases h
      exact noWsHead_dropWhile cs
    · exact absurd h (by simp)

theorem afterWord_noWsHead {s t : List Char} (h : afterWord s = some t) : noWsHead t := by
  unfold afterWord at h
  split at h
  · split at h
    · rename_i hr2
      cases h
      exact afterColon_noWsHead hr2
    · exact afterColon_noWsHead h
  · exact afterColon_noWsHead h

theorem matchLead_noWsHead {s t : List Char} (h : matchLead s = some t) : noWsHead t := by
  unfold matchLead at h
  obtain ⟨w, _, hw⟩ := List.exists_of_findSome?_eq_some h
  unfold tryWord at hw
  cases hd : dropWordCI w s with
  | none => rw [hd] at hw; simp at hw
  | some m =>
    rw [hd, Option.some_bind] at hw
    exact afterWord_noWsHead hw

theorem stripLeads_noWsHead {s : List Char} (h : noWsHead s) :
    noWsHead (stripLeads s) := by
  generalize hn : s.length = n
  induction n using Nat.strong_induction_on generalizing s with
  | _ n ih =>
    cases hm : matchLead s with
    | none => rw [stripLeads_of_none hm]; exact h
    | some t =>
      rw [stripLeads_of_some hm]
      exact ih t.length (hn ▸ matchLead_length hm) (matchLead_noWsHead hm) rfl

theorem toNat_ofNat_valid {n : Nat} (h : n < 55296) : (Char.ofNat n).toNat = n := by
  unfold Char.ofNat
  split
  · rfl
  · rename_i hv
    exact absurd (Or.inl h) hv

theorem toLowerChar_idem (c : Char) : toLowerChar (toLowerChar c) = toLowerChar c := by
  unfold toLowerChar
  split
  · rename_i hc
    have hv : (Char.ofNat (c.toNat + 32)).toNat = c.toNat + 32 :=
      toNat_ofNat_valid (by omega)
    rw [hv]
    rw [if_neg (by omega)]
  · rfl

theorem mem_lowerStr {c : Char} {s : List Char} (h : c ∈ lowerStr s) :
    toLowerChar c = c := by
  unfold lowerStr at h
  obtain ⟨d, _, hd⟩ := List.mem_map.mp h
  rw [← hd]
  exact toLowerChar_idem d

theorem trimLeft_suffix (l : List Char) : trimLeft l <:+ l :=
  List.dropWhile_suffix isWs

theorem mem_trimRight {c : Char} {l : List Char} (h : c ∈ trimRight l) : c ∈ l := by
  unfold trimRight at h
  rw [List.mem_reverse] at h
  have := (List.dropWhile_suffix (l := l.reverse) isWs).subset h
  exact List.mem_reverse.mp this

theorem mem_trimStr {c : Char} {l : List Char} (h : c ∈ trimStr l) : c ∈ l :=
  (trimLeft_suffix l).subset (mem_trimRight h)

theorem dropWordCI_suffix {w s r : List Char} (h : dropWordCI w s = some r) :
    r <:+ s := by
  induction w generalizing s r with
  | nil =>
    simp only [dropWordCI, Option.some_inj] at h
    exact h ▸ List.suffix_rfl
  | cons c cs ih =>
    cases s with
    | nil => simp [dropWordCI] at h
    | cons d ds =>
      simp only [dropWordCI] at h
      split at h
      · exact (ih h).trans (List.suffix_cons d ds)
      · exact absurd h (by simp)

theorem afterColon_suffix {s r : List Char} (h : afterColon s = some r) :
    r <:+ s := by
  cases s with
  | nil => simp [afterColon] at h
  | cons c cs =>
    simp only [afterColon] at h
    split at h
    · cases h
      exact (List.dropWhile_suffix isWs).trans (List.suffix_cons c cs)
    · exact absurd h (by simp)

theorem closeBracket_suffix {s r : List Char} (h : closeBracket s = some r) :
    r <:+ s := by
  cases s with
  | nil => simp [closeBracket] at h
  | cons c cs =>
    simp only [closeBracket] at h
    split at h
    · injection h with h2
      subst h2
      exact List.suffix_cons c cs
    · exact absurd h (by simp)

theorem dropBracket_suffix {s r : List Char} (h : dropBracket s = some r) :
    r <:+ s := by
  cases s with
  | nil => simp [dropBracket] at h
  | cons c cs =>
    simp only [dropBracket] at h
    split at h
    · split at h
      · exact absurd h (by simp)
      · exact ((closeBracket_suffix h).trans (List.dropWhile_suffix _)).trans
          (List.suffix_cons c cs)
    · exact absurd h (by simp)

theorem afterWord_suffix {s r : List Char} (h : afterWord s = some r) : r <:+ s := by
  unfold afterWord at h
  split at h
  · rename_i b hb
    split at h
    · rename_i r2 hr2
      cases h
      exact (afterColon_suffix hr2).trans (dropBracket_suffix hb)
    · exact afterColon_suffix h
  · exact afterColon_suffix h

theorem matchLead_suffix {s r : List Char} (h : matchLead s = some r) : r <:+ s := by
  unfold matchLead at h
  obtain ⟨w, _, hw⟩ := List.exists_of_findSome?_eq_some h
  unfold tryWord at hw
  cases hd : dropWordCI w s with
  | none => rw [hd] at hw; simp at hw
  | some m =>
    rw [hd, Option.some_bind] at hw
    exact (afterWord_suffix hw).trans (dropWordCI_suffix hd)

theorem stripLeads_suffix (s : List Char) : stripLeads s <:+ s := by
  generalize hn : s.length = n
  induction n using Nat.strong_induction_on generalizing s with
  | _ n ih =>
    cases hm : matchLead s with
    | none => rw [stripLeads_of_none hm]
    | some t =>
      rw [stripLeads_of_some hm]
      exact (ih t.length (hn ▸ matchLead_length hm) t rfl).trans (matchLead_suffix hm)

theorem dropWordCI_append {w t r : List Char} (v : List Char)
    (h : dropWordCI w t = some r) : dropWordCI w (t ++ v) = some (r ++ v) := by
  induction w generalizing t r with
  | nil =>
    simp only [dropWordCI, Option.some_inj] at h ⊢
    rw [h]
  | cons c cs ih =>
    cases t with
    | nil => simp [dropWordCI] at h
    | cons d ds =>
      simp only [dropWordCI, List.cons_append] at h ⊢
      split at h
      · rename_i hd
        rw [if_pos hd]
        exact ih h
      · exact absurd h (by simp)

theorem takeWhile_ne_nil_append {p : Char → Bool} {t : List Char} (v : List Char)
    (h : t.takeWhile p ≠ []) : (t ++ v).takeWhile p ≠ [] := by
  cases t with
  | nil => simp at h
  | cons c cs =>
    by_cases hp : p c
    · simp [List.takeWhile_cons, hp]
    · simp [List.takeWhile_cons, hp] at h

theorem dropWhile_cons_append {p : Char → Bool} {t : List Char} {c : Char}
    {r : List Char} (v : List Char) (h : t.dropWhile p = c :: r) :
    (t ++ v).dropWhile p = c :: (r ++ v) := by
  induction t generalizing r with
  | nil => simp at h
  | cons d ds ih =>
    by_cases hp : p d
    · rw [List.dropWhile_cons_of_pos hp] at h
      rw [List.cons_append, List.dropWhile_cons_of_pos hp]
      exact ih h
    · rw [List.dropWhile_cons_of_neg hp] at h
      injection h with h1 h2
      subst h1
      subst h2
      rw [List.cons_append, List.dropWhile_cons_of_neg hp]

theorem afterColon_head {t r : List Char} (h : afterColon t = some r) :
    ∃ rest, t = ':' :: rest := by
  cases t with
  | nil => simp [afterColon] at h
  | cons c cs =>
    simp only [afterColon] at h
    split at h
    · rename_i hc
      exact ⟨cs, by rw [hc]⟩
    · exact absurd h (by simp)

theorem dropBracket_head {t r : List Char} (h : dropBracket t = some r) :
    ∃ rest, t = '[' :: rest := by
  cases t with
  | nil => simp [dropBracket] at h
  | cons c cs =>
    simp only [dropBracket] at h
    split at h
    · rename_i hc
      exact ⟨cs, by rw [hc]⟩
    · exact absurd h (by simp)

theorem closeBracket_append {t r : List Char} (v : List Char)
    (h : closeBracket t = some r) : closeBracket (t ++ v) = some (r ++ v) := by
  cases t with
  | nil => simp [closeBracket] at h
  | cons c cs =>
    simp only [closeBracket] at h
    split at h
    · rename_i hc
      injection h with h2
      subst h2
      subst hc
      simp [closeBracket]
    · exact absurd h (by simp)

theorem dropBracket_append {t r : List Char} (v : List Char)
    (h : dropBracket t = some r) : dropBracket (t ++ v) = some (r ++ v) := by
  cases t with
  | nil => simp [dropBracket] at h
  | cons c cs =>
    simp only [dropBracket] at h
    split at h
    · rename_i hc
      split at h
      · exact absurd h (by simp)
      · rename_i htw
        subst hc
        have hred : dropBracket ('[' :: (cs ++ v)) =
            if List.takeWhile Char.isDigit (cs ++ v) = [] then none
            else closeBracket (List.dropWhile Char.isDigit (cs ++ v)) := by
          simp [dropBracket]
        rw [List.cons_append, hred, if_neg (takeWhile_ne_nil_append v htw)]
        cases hd : List.dropWhile Char.isDigit cs with
        | nil => rw [hd] at h; simp [closeBracket] at h
        | cons c2 r3 =>
          rw [hd] at h
          rw [dropWhile_cons_append v hd]
          have h2 := closeBracket_append v h
          rw [List.cons_append] at h2
          exact h2
    · exact absurd h (by simp)

theorem afterColon_append {t r : List Char} (v : List Char)
    (h : afterColon t = some r) : ∃ r2, afterColon (t ++ v) = some r2 := by
  obtain ⟨rest, hrest⟩ := afterColon_head h
  subst hrest
  exact ⟨(rest ++ v).dropWhile isWs, by simp [afterColon]⟩

theorem afterWord_some_some {s b r2 : List Char} (hb : dropBracket s = some b)
    (hc : afterColon b = some r2) : afterWord s = some r2 := by
  unfold afterWord
  split
  · rename_i b' hb'
    rw [hb] at hb'
    injection hb' with e
    subst e
    split
    · rename_i r2' hr2'
      rw [hc] at hr2'
      injection hr2' with e2
      rw [e2]
    · rename_i hr2'
      rw [hc] at hr2'
      cases hr2'
  · rename_i hb'
    rw [hb] at hb'
    cases hb'

theorem afterWord_none_colon {s : List Char} (hb : dropBracket s = none) :
    afterWord s = afterColon s := by
  unfold afterWord
  split
  · rename_i b' hb'
    rw [hb] at hb'
    cases hb'
  · rfl

theorem afterWord_append {t r : List Char} (v : List Char)
    (h : afterWord t = some r) : ∃ r2, afterWord (t ++ v) = some r2 := by
  unfold afterWord at h
  split at h
  · rename_i b hb
    split at h
    · rename_i r2 hr2
      obtain ⟨r3, hr3⟩ := afterColon_append v hr2
      exact ⟨r3, afterWord_some_some (dropBracket_append v hb) hr3⟩
    · rename_i hr2
      obtain ⟨rt, hrt⟩ := dropBracket_head hb
      obtain ⟨rt2, hrt2⟩ := afterColon_head h
      rw [hrt] at hrt2
      injection hrt2 with e1 e2
      exact absurd e1 (by decide)
  · rename_i hb
    obtain ⟨rt, hrt⟩ := afterColon_head h
    obtain ⟨r3, hr3⟩ := afterColon_append v h
    have hbv : dropBracket (t ++ v) = none := by
      subst hrt
      simp [dropBracket, List.cons_append]
    exact ⟨r3, by rw [afterWord_none_colon hbv]; exact hr3⟩

theorem matchLead_append {t r : List Char} (v : List Char)
    (h : matchLead t = some r) : ∃ r2, matchLead (t ++ v) = some r2 := by
  unfold matchLead at h ⊢
  obtain ⟨w, hwmem, hw⟩ := List.exists_of_findSome?_eq_some h
  unfold tryWord at hw
  cases hd : dropWordCI w t with
  | none => rw [hd] at hw; simp at hw
  | some m =>
    rw [hd, Option.some_bind] at hw
    obtain ⟨r2, hr2⟩ := afterWord_append v hw
    have htw : tryWord w (t ++ v) = some r2 := by
      unfold tryWord
      rw [dropWordCI_append v hd, Option.some_bind]
      exact hr2
    cases hf : List.findSome? (fun w => tryWord w (t ++ v)) leadWords with
    | some x => exact ⟨x, rfl⟩
    | none =>
      have := (List.findSome?_eq_none_iff.mp hf) w hwmem
      rw [this] at htw
      cases htw

theorem matchLead_trimRight_none {u : List Char} (h : matchLead u = none) :
    matchLead (trimRight u) = none := by
  obtain ⟨v, hv⟩ := trimRight_append_eq u
  cases hm : matchLead (trimRight u) with
  | none => rfl
  | some r =>
    obtain ⟨r2, hr2⟩ := matchLead_append v hm
    rw [hv, h] at hr2
    cases hr2

theorem lowerStr_fix {l : List Char} (h : ∀ c ∈ l, toLowerChar c = c) :
    lowerStr l = l := by
  unfold lowerStr
  induction l with
  | nil => rfl
  | cons c cs ih =>
    simp only [List.map_cons]
    rw [h c (List.mem_cons_self c cs), ih (fun d hd => h d (List.mem_cons_of_mem c hd))]

theorem trimRight_idem (l : List Char) : trimRight (trimRight l) = trimRight l := by
  unfold trimRight
  rw [List.reverse_reverse, dropWhile_self_eq]

theorem noWsHead_trimStr (l : List Char) : noWsHead (trimStr l) :=
  noWsHead_trimRight (noWsHead_dropWhile l)

theorem trimLeft_of_noWsHead {l : List Char} (h : noWsHead l) : trimLeft l = l := h

/-- Core idempotence: the list-level normalizer is a projection. -/
theorem normalizeSubjectL_idem (l : List Char) :
    normalizeSubjectL (normalizeSubjectL l) = normalizeSubjectL l := by
  have hW : noWsHead (stripLeads (trimStr (lowerStr l))) :=
    stripLeads_noWsHead (noWsHead_trimStr (lowerStr l))
  have hF : matchLead (stripLeads (trimStr (lowerStr l))) = none :=
    matchLead_stripLeads (trimStr (lowerStr l))
  have hU : normalizeSubjectL l = trimRight (stripLeads (trimStr (lowerStr l))) := by
    show trimRight (trimLeft (stripLeads (trimStr (lowerStr l)))) =
      trimRight (stripLeads (trimStr (lowerStr l)))
    rw [trimLeft_of_noWsHead hW]
  have hUne : matchLead (normalizeSubjectL l) = none := by
    rw [hU]
    exact matchLead_trimRight_none hF
  have hUws : noWsHead (normalizeSubjectL l) := by
    rw [hU]
    exact noWsHead_trimRight hW
  have hUlow : lowerStr (normalizeSubjectL l) = normalizeSubjectL l := by
    apply lowerStr_fix
    intro c hc
    have h1 : c ∈ stripLeads (trimStr (lowerStr l)) := by
      rw [hU] at hc
      exact mem_trimRight hc
    have h2 : c ∈ trimStr (lowerStr l) := (stripLeads_suffix _).subset h1
    exact mem_lowerStr (mem_trimStr h2)
  have hUtrim : trimStr (normalizeSubjectL l) = normalizeSubjectL l := by
    show trimRight (trimLeft (normalizeSubjectL l)) = normalizeSubjectL l
    rw [trimLeft_of_noWsHead hUws, hU, trimRight_idem]
  calc normalizeSubjectL (normalizeSubjectL l)
      = trimStr (stripLeads (trimStr (lowerStr (normalizeSubjectL l)))) := rfl
    _ = trimStr (stripLeads (trimStr (normalizeSubjectL l))) := by rw [hUlow]
    _ = trimStr (stripLeads (normalizeSubjectL l)) := by rw [hUtrim]
    _ = trimStr (normalizeSubjectL l) := by rw [stripLeads_of_none hUne]
    _ = normalizeSubjectL l := hUtrim

/-! ### Reference extraction (`extractMessageIds`) -/

/-- Scan to the first `>`: returns the characters before it and those
after it, or `none` when the list holds no `>`. -/
def splitAtGt : List Char → Option (List Char × List Char)
  | [] => none
  | c :: cs =>
    if c = '>' then some ([], cs)
    else (splitAtGt cs).map (fun p => (c :: p.1, p.2))

theorem splitAtGt_length {l a b : List Char} (h : splitAtGt l = some (a, b)) :
    b.length < l.length := by
  induction l generalizing a b with
  | nil => simp [splitAtGt] at h
  | cons c cs ih =>
    simp only [splitAtGt] at h
    split at h
    · injection h with h2
      injection h2 with h3 h4
      subst h4
      exact Nat.lt_succ_self _
    · cases hs : splitAtGt cs with
      | none => rw [hs] at h; simp at h
      | some p =>
        rw [hs] at h
        simp only [Option.map_some'] at h
        injection h with h2
        cases p with
        | mk p1 p2 =>
          injection h2 with h3 h4
          subst h4
          exact Nat.lt_succ_of_lt (ih hs)

/-- `value.match(/<[^>]+>/g)` with an explicit fuel bound (the scan
position advances at every step, so `s.length + 1` steps suffice):
all non-overlapping angle-bracketed identifiers with non-empty
content, left to right.  An opening bracket with no later `>` ends
the scan (no further match is possible); a `<>` with empty content is
not a match and scanning resumes right after the `<`. -/
def matchAngleIdsF : Nat → List Char → List String
  | 0, _ => []
  | fuel + 1, s =>
    match s with
    | [] => []
    | c :: rest =>
      if c = '<' then
        match splitAtGt rest with
        | some (content, after) =>
          if content = [] then matchAngleIdsF fuel rest
          else (('<' :: content ++ ['>']).asString) :: matchAngleIdsF fuel after
        | none => []
      else matchAngleIdsF fuel rest

/-- `value.match(/<[^>]+>/g) || []` on a character list. -/
def matchAngleIds (s : List Char) : List String := matchAngleIdsF (s.length + 1) s

/-- Lookup in a JS object used as a string map (`headers[k]`);
keys are unique, the first binding wins. -/
def hget (headers : List (String × String)) (k : String) : Option String :=
  (headers.find? (fun p => p.1 = k)).map (fun p => p.2)

/-- JS `a || b` on an optional string: `undefined` and `''` fall through. -/
def jsOrElse (a : Option String) (b : String) : String :=
  match a with
  | some s => if s = "" then b else s
  | none => b

/-- `headers[lower] || headers[upper] || ''`. -/
def headerValue (headers : List (String × String)) (lower upper : String) : String :=
  jsOrElse (hget headers lower) (jsOrElse (hget headers upper) "")

/-- `Array.from(new Set(l))`: de-duplicate keeping first occurrences,
in insertion order. -/
def dedupKeepFirst (l : List String) : List String :=
  l.foldl (fun acc x => if acc.contains x then acc else acc ++ [x]) []

/-- `extractMessageIds(headers)` from `threading.server.ts`. -/
def extractMessageIds (headers : List (String × String)) : List String :=
  let referencesHeader := headerValue headers "references" "References"
  let inReplyToHeader := headerValue headers "in-reply-to" "In-Reply-To"
  let refMatches := matchAngleIds referencesHeader.data
  let replyMatches := matchAngleIds inReplyToHeader.data
  dedupKeepFirst (refMatches ++ replyMatches)

/-! ### The database rows touched by threading -/

/-- A stored received message (`emails` table), the columns threading
reads. Timestamps are epoch seconds (see the header comment). -/
structure EmailRow where
  id : String
  inboxId : String
  messageId : Option String
  threadId : Option String
  isRead : Bool
deriving Repr, DecidableEq

/-- A stored sent message (`sentEmails` table), the columns threading
reads. -/
structure SentEmailRow where
  inboxId : String
  messageId : Option String
  threadId : Option String
deriving Repr, DecidableEq

/-- A conversation row (`threads` table). -/
structure ThreadRow where
  id : String
  inboxId : String
  normalizedSubject : String
  participants : List String
  messageCount : Int
  unreadCount : Int
  latestMessageId : Option String
  latestPreview : Option String
  latestMessageAt : Option Nat
deriving Repr, DecidableEq

/-- The tables the Thread Resolver queries. Row order models the
iteration order of `.get()` (first matching row wins). -/
structure ThreadingDb where
  emails : List EmailRow
  sentEmails : List SentEmailRow
  threads : List ThreadRow
deriving Repr, DecidableEq

/-- `SELECT threadId FROM emails WHERE inboxId = ? AND messageId = ?`,
first row. -/
def dbEmailByMessageId (db : ThreadingDb) (inboxId refId : String) : Option EmailRow :=
  db.emails.find? (fun e => e.inboxId = inboxId && e.messageId = some refId)

/-- Same lookup on the `sentEmails` table. -/
def dbSentByMessageId (db : ThreadingDb) (inboxId refId : String) : Option SentEmailRow :=
  db.sentEmails.find? (fun e => e.inboxId = inboxId && e.messageId = some refId)

/-- Strategy 1 of `findThreadForEmail`: walk the referenced ids in
order; for each, a received match with a thread wins, then a sent
match with a thread; otherwise move to the next id. -/
def findByReference (db : ThreadingDb) (inboxId : String) : List String → Option String
  | [] => none
  | refId :: rest =>
    match (dbEmailByMessageId db inboxId refId).bind (fun e => e.threadId) with
    | some tid => some tid
    | none =>
      match (dbSentByMessageId db inboxId refId).bind (fun e => e.threadId) with
      | some tid => some tid
      | none => findByReference db inboxId rest

/-- Seconds in the `SUBJECT_MATCH_DAYS = 7` window. -/
def SUBJECT_MATCH_WINDOW : Nat := 7 * 86400

/-- Strategy 2 of `findThreadForEmail`: threads of the same mailbox with
an identical normalized subject and `latestMessageAt >= cutoff`
(`cutoff` is seven days before `now`; a SQL `NULL` never satisfies
`>=`), ordered by `latestMessageAt` descending, first row.  Ties keep
the earlier row, matching a stable sort over the stored order. -/
def subjectMatch (db : ThreadingDb) (inboxId : String) (normalized : String)
    (now : Nat) : Option String :=
  let cutoff := now - SUBJECT_MATCH_WINDOW
  let candidates := db.threads.filter (fun t =>
    t.inboxId = inboxId && t.normalizedSubject = normalized &&
      match t.latestMessageAt with
      | some ts => cutoff ≤ ts
      | none => false)
  (candidates.foldl (fun acc t =>
    match acc with
    | none => some t
    | some b => if b.latestMessageAt.getD 0 < t.latestMessageAt.getD 0 then some t else acc)
    none).map (fun t => t.id)

/-- `findThreadForEmail(inboxId, messageId, headers, subject)` from
`threading.server.ts`.  `now` models `new Date()` at the moment of the
call; the ingestion gateway assigns this same instant as the new
message's timestamp, so at ingestion time the trailing window is
anchored at the new message's own timestamp. -/
def findThreadForEmail (db : ThreadingDb) (inboxId : String)
    (_messageId : Option String) (headers : List (String × String))
    (subject : Option String) (now : Nat) : Option String :=
  let referencedIds := extractMessageIds headers
  match findByReference db inboxId referencedIds with
  | some tid => some tid
  | none =>
    let normalized := normalizeSubject subject
    if normalized ≠ "" then subjectMatch db inboxId normalized now
    else none

/-! ### Thread store updater -/

/-- `preview?.substring(0, 200) || null`: truncate to 200 characters,
an empty result (or a null/undefined input) becomes `null`. -/
def jsPreview (p : Option String) : Option String :=
  match p with
  | some s =>
    let t := (s.data.take 200).asString
    if t = "" then none else some t
  | none => none

/-- `createThread(inboxId, subject, fromAddress, preview, receivedAt)`:
the produced row (`id` is the generated primary key; `now` models
`new Date()` for the `receivedAt || ...` default). -/
def createThread (id inboxId : String) (subject : Option String)
    (fromAddress : String) (preview : Option String) (receivedAt : Option Nat)
    (now : Nat) : ThreadRow :=
  { id := id
    inboxId := inboxId
    normalizedSubject := normalizeSubject subject
    participants := [fromAddress]
    messageCount := 1
    unreadCount := 1
    latestMessageId := none
    latestPreview := jsPreview preview
    latestMessageAt := some (receivedAt.getD now) }

/-- `createThreadForSentEmail(inboxId, subject, recipientAddress,
preview, sentAt)`: like `createThread` but seeded with `unreadCount: 0`. -/
def createThreadForSentEmail (id inboxId : String) (subject : Option String)
    (recipientAddress : String) (preview : Option String) (sentAt : Option Nat)
    (now : Nat) : ThreadRow :=
  { id := id
    inboxId := inboxId
    normalizedSubject := normalizeSubject subject
    participants := [recipientAddress]
    messageCount := 1
    unreadCount := 0
    latestMessageId := none
    latestPreview := jsPreview preview
    latestMessageAt := some (sentAt.getD now) }

/-- The `opts` argument of `updateThreadStats`.  `preview` distinguishes
`undefined` (`none`, field absent) from a passed `string | null`
(`some`); `timestamp` is `none` for an absent/falsy value. -/
structure UpdateOpts where
  messageId : Option String := none
  preview : Option (Option String) := none
  timestamp : Option Nat := none
  fromAddress : Option String := none
  incrementUnread : Bool := false
  decrementUnread : Bool := false
  isSentEmail : Bool := false
deriving Repr

/-- `updateThreadStats(threadId, opts)` applied to the fetched row
(the code no-ops when the row is absent; see `updateThreadStatsDb`).
Both branches of the `isSentEmail` conditional increment
`messageCount` by one.  The latest-message fields advance only when
the supplied timestamp is `>=` the current one (absent
`latestMessageAt` reads as 0). -/
def updateThreadStats (thread : ThreadRow) (opts : UpdateOpts) : ThreadRow :=
  let t1 := { thread with messageCount := thread.messageCount + 1 }
  let t2 :=
    match opts.timestamp with
    | none => t1
    | some ts =>
      let currentLatest := thread.latestMessageAt.getD 0
      if currentLatest ≤ ts then
        { t1 with
          latestMessageAt := some ts
          latestMessageId :=
            match opts.messageId with
            | some m => some m
            | none => t1.latestMessageId
          latestPreview :=
            match opts.preview with
            | some p => jsPreview p
            | none => t1.latestPreview }
      else t1
  let t3 :=
    if opts.incrementUnread then
      { t2 with unreadCount := thread.unreadCount + 1 }
    else if opts.decrementUnread ∧ 0 < thread.unreadCount then
      { t2 with unreadCount := thread.unreadCount - 1 }
    else t2
  match opts.fromAddress with
  | some addr =>
    if thread.participants.contains addr then t3
    else { t3 with participants := t3.participants ++ [addr] }
  | none => t3

/-- The db-level wrapper: fetch the row by id, no-op when absent,
otherwise write back the updated row in place. -/
def updateThreadStatsDb (db : ThreadingDb) (threadId : String)
    (opts : UpdateOpts) : ThreadingDb :=
  match db.threads.find? (fun t => t.id = threadId) with
  | none => db
  | some _ =>
    { db with
      threads := db.threads.map (fun t =>
        if t.id = threadId then updateThreadStats t opts else t) }

/-- `recalculateThreadUnreadCount(threadId)`: replace `unreadCount` with
`count(*)` of unread received messages in the thread. -/
def recalculateThreadUnreadCount (db : ThreadingDb) (thread : ThreadRow) : ThreadRow :=
  let unreadCount :=
    (db.emails.filter (fun e => e.threadId = some thread.id && e.isRead = false)).length
  { thread with unreadCount := (unreadCount : Int) }

/-! ### Event bus (`eventBus.server.ts`) -/

/-- An SSE connection handle.  `broken` models a controller whose
`enqueue` throws (the connection is closed) at the time of the call. -/
structure Conn where
  connId : Nat
  userId : String
  broken : Bool
deriving Repr, DecidableEq

/-- The kind of a notification event. -/
inductive InboxEventKind where
  | newEmail
  | threadUpdate
deriving Repr, DecidableEq

/-- The `InboxEvent` payload put on the bus. -/
structure InboxEvent where
  kind : InboxEventKind
  threadId : String
  emailId : String
  preview : Option String
  fromAddress : String
  subject : Option String
  timestamp : String
deriving Repr, DecidableEq

/-- The bus: `Map<inboxId, Set<SSEConnection>>` (entries in insertion
order, connections in insertion order) plus the shared heartbeat
timer flag (`heartbeatTimer !== null`). -/
structure BusState where
  subscribers : List (String × List Conn)
  heartbeatRunning : Bool
deriving Repr, DecidableEq

/-- The empty bus at module load. -/
def busInit : BusState := { subscribers := [], heartbeatRunning := false }

/-- `subscribers.get(inboxId)`. -/
def busGet (st : BusState) (inboxId : String) : Option (List Conn) :=
  (st.subscribers.find? (fun p => p.1 = inboxId)).map (fun p => p.2)

/-- Replace the connection set of an existing entry. -/
def busSetEntry (subs : List (String × List Conn)) (inboxId : String)
    (conns : List Conn) : List (String × List Conn) :=
  subs.map (fun p => if p.1 = inboxId then (p.1, conns) else p)

/-- Drop a mailbox entry. -/
def busDropEntry (subs : List (String × List Conn)) (inboxId : String) :
    List (String × List Conn) :=
  subs.filter (fun p => p.1 ≠ inboxId)

/-- `subscribe(inboxId, userId, controller)`: get-or-create the set,
add the connection, start the heartbeat when the timer is not
running. -/
def subscribe (st : BusState) (inboxId : String) (c : Conn) : BusState :=
  let subs :=
    match busGet st inboxId with
    | some conns =>
      busSetEntry st.subscribers inboxId
        (if conns.contains c then conns else conns ++ [c])
    | none => st.subscribers ++ [(inboxId, [c])]
  { subscribers := subs, heartbeatRunning := true }

/-- The unsubscribe closure returned by `subscribe`: delete the
connection from the inbox's set, drop the entry when it became empty,
stop the heartbeat when the whole registry became empty. -/
def unsubscribe (st : BusState) (inboxId : String) (c : Conn) : BusState :=
  let subs1 :=
    match busGet st inboxId with
    | some conns => busSetEntry st.subscribers inboxId (conns.filter (fun x => x ≠ c))
    | none => st.subscribers
  let subs2 :=
    if busGet { st with subscribers := subs1 } inboxId = some [] then
      busDropEntry subs1 inboxId
    else subs1
  { subscribers := subs2
    heartbeatRunning := if subs2 = [] then false else st.heartbeatRunning }

/-- `notifyInbox(inboxId, event)`: no-op for an absent or empty set;
otherwise enqueue to every connection in order, collecting the ones
whose write throws, delete those afterwards, and delete the mailbox
entry when its set became empty.  Returns the new state and the list
of performed deliveries `(connId, event)`.  The heartbeat flag is not
touched. -/
def notifyInbox (st : BusState) (inboxId : String) (event : InboxEvent) :
    BusState × List (Nat × InboxEvent) :=
  match busGet st inboxId with
  | none => (st, [])
  | some conns =>
    if conns.isEmpty then (st, [])
    else
      let delivered := (conns.filter (fun c => !c.broken)).map (fun c => (c.connId, event))
      let alive := conns.filter (fun c => !c.broken)
      let subs1 :=
        if alive.isEmpty then busDropEntry st.subscribers inboxId
        else busSetEntry st.subscribers inboxId alive
      ({ st with subscribers := subs1 }, delivered)

/-- `sendHeartbeat()`: enqueue a keep-alive to every connection of every
mailbox, collect the failures, then delete them and any emptied
entry.  Returns the connections that received the frame.  The
heartbeat flag is not touched even when the registry empties. -/
def sendHeartbeat (st : BusState) : BusState × List Nat :=
  let delivered := st.subscribers.flatMap
    (fun p => (p.2.filter (fun c => !c.broken)).map (fun c => c.connId))
  let subs1 := st.subscribers.map (fun p => (p.1, p.2.filter (fun c => !c.broken)))
  let subs2 := subs1.filter (fun p => !p.2.isEmpty)
  ({ st with subscribers := subs2 }, delivered)

/-! ### Ingestion gateway (`api.webhook.email.ts`) -/

/-- The columns of the `inboxes` table the gateway reads. -/
structure InboxRow where
  id : String
  localPart : String
deriving Repr, DecidableEq

/-- The parsed webhook payload (the fields the action uses). -/
structure WebhookPayload where
  messageId : Option String
  fromAddress : String
  fromName : Option String
  toAddr : String
  replyTo : Option String
  subject : Option String
  text : Option String
  html : Option String
  headers : List (String × String)

/-- An inbound HTTP request as the action sees it: the method, the
`X-Webhook-Signature` header, and the exact raw body. -/
structure WebhookRequest where
  method : String
  signature : Option String
  body : String

/-- The gateway's environment.  `hmac payload secret` models
`sign(payload, secret)` — the base64 HMAC-SHA256 — and `parse` models
`JSON.parse` (`none` for a malformed body); both are external
primitives to this subsystem. -/
structure GatewayEnv where
  secret : String
  appDomain : String
  hmac : String → String → String
  parse : String → Option WebhookPayload

/-- Persistent state the action touches. -/
structure GatewayState where
  inboxes : List InboxRow
  db : ThreadingDb

/-- Fresh primary keys for the rows an accepted run inserts. -/
structure FreshIds where
  threadId : String
  emailId : String

/-- The action's observable outcome: HTTP status, resulting database,
and every `notifyInbox` publication it performed (the source performs
none — the notify step is an unimplemented TODO). -/
structure GatewayOutcome where
  status : Nat
  db : ThreadingDb
  published : List (String × InboxEvent)
deriving Repr

/-- The post-authentication stage of the `action`: domain check on the
lowercased recipient, mailbox lookup by local part, thread
resolution, thread create/update, email insert, `200`.  `now` models
`new Date()`; it is used both as the new message's timestamp and
(inside `findThreadForEmail`) as the anchor of the subject window. -/
def processPayload (env : GatewayEnv) (st : GatewayState) (fresh : FreshIds)
    (now : Nat) (payload : WebhookPayload) : GatewayOutcome :=
  let toAddress := lowerStr payload.toAddr.data
  if ¬ (('@' :: env.appDomain.data).isSuffixOf toAddress) then ⟨400, st.db, []⟩
  else
    let localPart := (toAddress.takeWhile (fun c => c ≠ '@')).asString
    match st.inboxes.find? (fun i => i.localPart = localPart) with
    | none => ⟨404, st.db, []⟩
    | some inbox =>
      let threadId? := findThreadForEmail st.db inbox.id payload.messageId
        payload.headers payload.subject now
      let preview := jsPreview payload.text
      let step :=
        match threadId? with
        | none =>
          (fresh.threadId,
           { st.db with
             threads := st.db.threads ++
               [createThread fresh.threadId inbox.id payload.subject
                 payload.fromAddress preview (some now) now] })
        | some tid =>
          (tid,
           updateThreadStatsDb st.db tid
             { messageId := payload.messageId
               preview := some preview
               timestamp := some now
               fromAddress := some payload.fromAddress
               incrementUnread := true })
      let emailRow : EmailRow :=
        { id := fresh.emailId
          inboxId := inbox.id
          messageId := payload.messageId
          threadId := some step.1
          isRead := false }
      ⟨200, { step.2 with emails := step.2.emails ++ [emailRow] }, []⟩

/-- The `action` of `api.webhook.email.ts`: method guard, signature
guard over the exact raw body, JSON parse, then `processPayload`. -/
def webhookAction (env : GatewayEnv) (st : GatewayState) (fresh : FreshIds)
    (now : Nat) (req : WebhookRequest) : GatewayOutcome :=
  if req.method ≠ "POST" then ⟨405, st.db, []⟩
  else
    match req.signature with
    | none => ⟨401, st.db, []⟩
    | some sig =>
      if sig ≠ env.hmac req.body env.secret then ⟨401, st.db, []⟩
      else
        match env.parse req.body with
        | none => ⟨400, st.db, []⟩
        | some payload => processPayload env st fresh now payload

/-! ### Streaming client (`useInboxSSE.ts`) -/

def MAX_RETRIES : Nat := 3

def INITIAL_RETRY_DELAY : Nat := 1000

def FALLBACK_POLL_INTERVAL : Nat := 10000

/-- The `ConnectionState` union of the hook. -/
inductive ConnState where
  | connecting
  | connected
  | reconnecting
  | disconnected
  | polling
deriving Repr, DecidableEq

/-- The client's mutable refs: connection state, `retryCountRef`,
whether an `EventSource` is open, whether the fallback poll interval
is installed. -/
structure SSEClient where
  conn : ConnState
  retryCount : Nat
  streamOpen : Bool
  pollingActive : Bool
deriving Repr, DecidableEq

/-- Refs at mount, before the first `connect()`. -/
def clientInit : SSEClient :=
  { conn := .connecting, retryCount := 0, streamOpen := false, pollingActive := false }

/-- `connect()`: close any existing source and clear the retry timer;
when the retry count has reached `MAX_RETRIES`, start the fallback
polling instead of opening a stream; otherwise open a new
`EventSource`. -/
def connect (s : SSEClient) : SSEClient :=
  let s1 := { s with streamOpen := false }
  if MAX_RETRIES ≤ s1.retryCount then
    { s1 with pollingActive := true, conn := .polling }
  else
    { s1 with conn := .connecting, streamOpen := true }

/-- The `connected` listener: mark connected, reset the retry count,
stop any fallback polling. -/
def onConnected (s : SSEClient) : SSEClient :=
  { s with conn := .connected, retryCount := 0, pollingActive := false }

/-- `eventSource.onerror`: close the source, compute the backoff delay
`INITIAL_RETRY_DELAY * 2 ** retryCount`, increment the retry count,
and schedule `connect()` after that delay (returned). -/
def onStreamError (s : SSEClient) : SSEClient × Nat :=
  let delay := INITIAL_RETRY_DELAY * 2 ^ s.retryCount
  ({ s with conn := .reconnecting, streamOpen := false, retryCount := s.retryCount + 1 },
   delay)

/-- Externally observable client events: the scheduled reconnect timer
firing (which calls `connect`), a transport error, and the server's
`connected` acknowledgement frame. -/
inductive ClientEvent where
  | timerConnect
  | errorFrame
  | connectedFrame
deriving Repr, DecidableEq

/-- Drive the client, accumulating the scheduled backoff delays. -/
def clientStep : SSEClient × List Nat → ClientEvent → SSEClient × List Nat
  | (s, ds), .timerConnect => (connect s, ds)
  | (s, ds), .errorFrame =>
    let r := onStreamError s
    (r.1, ds ++ [r.2])
  | (s, ds), .connectedFrame => (onConnected s, ds)

/-- A run from mount (`connect()` on mount, then the event list). -/
def runClient (evts : List ClientEvent) : SSEClient × List Nat :=
  evts.foldl clientStep (connect clientInit, [])

/-! ### Concrete fixtures used by closed theorems and witnesses -/

/-- A well-formed parsed payload addressed to `user@innbox.dev`. -/
def samplePayload : WebhookPayload :=
  { messageId := some "<m1@x>"
    fromAddress := "alice@example.com"
    fromName := none
    toAddr := "User@innbox.dev"
    replyTo := none
    subject := some "Hello"
    text := some "hi there"
    html := none
    headers := [] }

/-- An environment whose HMAC of any body is `"SIG"` and whose parser
accepts exactly the raw body `"BODY"`. -/
def sampleEnv : GatewayEnv :=
  { secret := "sec"
    appDomain := "innbox.dev"
    hmac := fun _ _ => "SIG"
    parse := fun b => if b = "BODY" then some samplePayload else none }

/-- One registered mailbox `user@innbox.dev`, empty tables. -/
def sampleState : GatewayState :=
  { inboxes := [{ id := "ib1", localPart := "user" }]
    db := { emails := [], sentEmails := [], threads := [] } }

def sampleFresh : FreshIds := { threadId := "th1", emailId := "em1" }

/-- A correctly signed POST carrying the parseable body. -/
def sampleAccepted : WebhookRequest :=
  { method := "POST", signature := some "SIG", body := "BODY" }

/-- A sample notification event for bus theorems. -/
def sampleEvent : InboxEvent :=
  { kind := .newEmail, threadId := "t", emailId := "e", preview := none,
    fromAddress := "f", subject := none, timestamp := "ts" }

/-! ### Mutation sequences on a thread row (for the unread invariant) -/

/-- The mutations a thread row undergoes after creation. -/
inductive ThreadOp where
  | apply (opts : UpdateOpts)
  | recalc (db : ThreadingDb)

/-- One mutation step. -/
def threadOpStep (t : ThreadRow) : ThreadOp → ThreadRow
  | .apply opts => updateThreadStats t opts
  | .recalc db => recalculateThreadUnreadCount db t

theorem updateThreadStats_unread (thread : ThreadRow) (opts : UpdateOpts) :
    (updateThreadStats thread opts).unreadCount =
      (if opts.incrementUnread then thread.unreadCount + 1
       else if opts.decrementUnread ∧ 0 < thread.unreadCount then thread.unreadCount - 1
       else thread.unreadCount) := by
  unfold updateThreadStats
  cases hts : opts.timestamp <;> cases hfa : opts.fromAddress <;>
    simp only [hts, hfa] <;> split_ifs <;> simp_all

theorem threadOpStep_unread_nonneg {t : ThreadRow} (h : 0 ≤ t.unreadCount)
    (op : ThreadOp) : 0 ≤ (threadOpStep t op).unreadCount := by
  cases op with
  | apply opts =>
    simp only [threadOpStep, updateThreadStats_unread]
    split
    · omega
    · split
      · omega
      · exact h
  | recalc db =>
    simp only [threadOpStep, recalculateThreadUnreadCount]
    exact Int.natCast_nonneg _

theorem foldl_threadOp_unread_nonneg {t : ThreadRow} (h : 0 ≤ t.unreadCount)
    (ops : List ThreadOp) : 0 ≤ (ops.foldl threadOpStep t).unreadCount := by
  induction ops generalizing t with
  | nil => exact h
  | cons op rest ih => exact ih (threadOpStep_unread_nonneg h op)

/-! ### Claim theorems -/

/-- C8: `normalizeSubject` is idempotent — for every input string
(including null/undefined, which normalize to the empty string),
normalizing an already-normalized subject returns it unchanged. -/
theorem claim8_normalizeSubject_idempotent (s : Option String) :
    normalizeSubject (some (normalizeSubject s)) = normalizeSubject s := by
  cases s with
  | none => rfl
  | some str =>
    by_cases h : str.data = []
    · simp [normalizeSubject, h]
    · have hns : normalizeSubject (some str) = (normalizeSubjectL str.data).asString := by
        simp [normalizeSubject, h]
      rw [hns]
      by_cases h2 : normalizeSubjectL str.data = []
      · rw [h2]
        rfl
      · have hdata : ((normalizeSubjectL str.data).asString).data
            = normalizeSubjectL str.data := rfl
        simp [normalizeSubject, hdata, h2, normalizeSubjectL_idem]

/-- C6 counterexample: the claim promises that any casing of the
`references` key is honored, but an upper-cased `REFERENCES` header
is ignored: the extractor returns `[]`, not `[<a>]`. -/
theorem claim6_counterexample :
    extractMessageIds [("REFERENCES", "<a>")] = [] ∧
    ("<a>" :: []) ≠ ([] : List String) := by decide

/-- C6 (amended): `extractMessageIds` reads only the exact key casings
`references`/`References` and `in-reply-to`/`In-Reply-To` (other
casings such as `REFERENCES` are ignored); it returns the
angle-bracketed identifiers of the references value followed by those
of the in-reply-to value, de-duplicated keeping the first occurrence
in encounter order; absent headers yield the empty list. -/
theorem claim6_extractMessageIds_amended :
    (extractMessageIds [("references", "<a> <b> <a>"), ("in-reply-to", "<b>")]
      = ["<a>", "<b>"]) ∧
    (extractMessageIds [("References", "<a> <b> <a>"), ("In-Reply-To", "<b>")]
      = ["<a>", "<b>"]) ∧
    (∀ v w, extractMessageIds [("REFERENCES", v), ("IN-REPLY-TO", w)] = []) ∧
    (∀ headers, hget headers "references" = none → hget headers "References" = none →
      hget headers "in-reply-to" = none → hget headers "In-Reply-To" = none →
      extractMessageIds headers = []) := by
  refine ⟨by decide, by decide, ?_, ?_⟩
  · intro v w
    simp [extractMessageIds, headerValue, hget, jsOrElse, matchAngleIds, matchAngleIdsF,
      dedupKeepFirst]
  · intro headers h1 h2 h3 h4
    simp [extractMessageIds, headerValue, h1, h2, h3, h4, jsOrElse, matchAngleIds,
      matchAngleIdsF, dedupKeepFirst]

/-- C6 witness: the amended theorem applied to an empty header map. -/
theorem claim6_witness : extractMessageIds [] = [] :=
  claim6_extractMessageIds_amended.2.2.2 [] rfl rfl rfl rfl

/-- C9: after `n` prior consecutive transport errors (`n = 0, 1, 2`) the
next reconnect is scheduled after `INITIAL_RETRY_DELAY * 2 ^ n`
(1000, 2000, 4000 ms); once the retry count reaches `MAX_RETRIES = 3`
the next `connect()` opens no stream and engages the polling
fallback; a `connected` event resets the retry counter to 0.  The
last conjunct runs the mount-then-three-errors trace concretely. -/
theorem claim9_reconnect_backoff :
    (∀ s : SSEClient, ∀ n, s.retryCount = n → n < MAX_RETRIES →
      (onStreamError s).2 = INITIAL_RETRY_DELAY * 2 ^ n ∧
      (onStreamError s).1.retryCount = n + 1) ∧
    (∀ s : SSEClient, s.retryCount = MAX_RETRIES →
      (connect s).conn = .polling ∧ (connect s).streamOpen = false ∧
      (connect s).pollingActive = true) ∧
    (∀ s : SSEClient, (onConnected s).retryCount = 0) ∧
    (runClient [.errorFrame, .timerConnect, .errorFrame, .timerConnect,
        .errorFrame, .timerConnect]
      = ({ conn := .polling, retryCount := 3, streamOpen := false,
           pollingActive := true }, [1000, 2000, 4000])) := by
  refine ⟨?_, ?_, ?_, by decide⟩
  · intro s n hn _
    subst hn
    exact ⟨rfl, rfl⟩
  · intro s hs
    simp [connect, hs, MAX_RETRIES]
  · intro s
    rfl

/-- C9 witness: the backoff formula applied after two prior errors. -/
theorem claim9_witness :
    (onStreamError
      { conn := .reconnecting, retryCount := 2, streamOpen := true,
        pollingActive := false }).2 = 4000 := by
  have h := (claim9_reconnect_backoff.1
    { conn := .reconnecting, retryCount := 2, streamOpen := true, pollingActive := false }
    2 rfl (by decide)).1
  simpa using h

/-- C10: a thread's unread count never becomes negative under any
mutation sequence: `createThread` seeds it at 1,
`createThreadForSentEmail` at 0, `updateThreadStats` decrements only
when strictly positive, and `recalculateThreadUnreadCount` assigns a
(non-negative) cardinality. -/
theorem claim10_unread_never_negative (id inboxId : String) (subject : Option String)
    (addr : String) (preview : Option String) (at? : Option Nat) (now : Nat)
    (ops : List ThreadOp) :
    (createThread id inboxId subject addr preview at? now).unreadCount = 1 ∧
    (createThreadForSentEmail id inboxId subject addr preview at? now).unreadCount = 0 ∧
    (∀ t : ThreadRow, 0 ≤ t.unreadCount → ∀ op, 0 ≤ (threadOpStep t op).unreadCount) ∧
    0 ≤ ((ops.foldl threadOpStep
          (createThread id inboxId subject addr preview at? now)).unreadCount) ∧
    0 ≤ ((ops.foldl threadOpStep
          (createThreadForSentEmail id inboxId subject addr preview at? now)).unreadCount) := by
  refine ⟨rfl, rfl, fun t ht op => threadOpStep_unread_nonneg ht op, ?_, ?_⟩
  · exact foldl_threadOp_unread_nonneg (by simp [createThread]) ops
  · exact foldl_threadOp_unread_nonneg (by simp [createThreadForSentEmail]) ops

/-- C10 witness: a decrement right after creation stays non-negative. -/
theorem claim10_witness :
    0 ≤ (([ThreadOp.apply { decrementUnread := true }].foldl threadOpStep
      (createThreadForSentEmail "t1" "ib1" none "a@b" none none 0)).unreadCount) :=
  (claim10_unread_never_negative "t1" "ib1" none "a@b" none none 0
    [ThreadOp.apply { decrementUnread := true }]).2.2.2.2

theorem updateThreadStats_latest (thread : ThreadRow) (opts : UpdateOpts) :
    (updateThreadStats thread opts).latestMessageAt =
      match opts.timestamp with
      | some ts =>
        if thread.latestMessageAt.getD 0 ≤ ts then some ts else thread.latestMessageAt
      | none => thread.latestMessageAt := by
  unfold updateThreadStats
  cases hts : opts.timestamp <;> cases hfa : opts.fromAddress <;>
    simp only [hts, hfa] <;> split_ifs <;> simp_all

theorem updateThreadStats_latestId (thread : ThreadRow) (opts : UpdateOpts) :
    (updateThreadStats thread opts).latestMessageId =
      match opts.timestamp with
      | some ts =>
        if thread.latestMessageAt.getD 0 ≤ ts then
          match opts.messageId with
          | some m => some m
          | none => thread.latestMessageId
        else thread.latestMessageId
      | none => thread.latestMessageId := by
  unfold updateThreadStats
  cases hts : opts.timestamp <;> cases hfa : opts.fromAddress <;>
    simp only [hts, hfa] <;> split_ifs <;> simp_all

theorem updateThreadStats_latestPreview (thread : ThreadRow) (opts : UpdateOpts) :
    (updateThreadStats thread opts).latestPreview =
      match opts.timestamp with
      | some ts =>
        if thread.latestMessageAt.getD 0 ≤ ts then
          match opts.preview with
          | some p => jsPreview p
          | none => thread.latestPreview
        else thread.latestPreview
      | none => thread.latestPreview := by
  unfold updateThreadStats
  cases hts : opts.timestamp <;> cases hfa : opts.fromAddress <;>
    simp only [hts, hfa] <;> split_ifs <;> simp_all

theorem updateThreadStats_messageCount (thread : ThreadRow) (opts : UpdateOpts) :
    (updateThreadStats thread opts).messageCount = thread.messageCount + 1 := by
  unfold updateThreadStats
  cases hts : opts.timestamp <;> cases hfa : opts.fromAddress <;>
    simp only [hts, hfa] <;> split_ifs <;> simp_all

theorem updateThreadStats_participants (thread : ThreadRow) (opts : UpdateOpts) :
    (updateThreadStats thread opts).participants =
      match opts.fromAddress with
      | some a =>
        if thread.participants.contains a then thread.participants
        else thread.participants ++ [a]
      | none => thread.participants := by
  unfold updateThreadStats
  cases hts : opts.timestamp <;> cases hfa : opts.fromAddress <;>
    simp only [hts, hfa] <;> split_ifs <;> simp_all

/-- C5: `updateThreadStats` never regresses `latestMessageAt` (absent
reads as 0): a strictly older supplied timestamp still bumps the
message count (and the unread count / participants per the options)
but leaves `latestMessageAt`, `latestMessageId` and `latestPreview`
unchanged; a supplied timestamp `>=` the current latest advances them
to the new message's values. -/
theorem claim5_latest_activity_monotone (thread : ThreadRow) (opts : UpdateOpts) :
    (thread.latestMessageAt.getD 0 ≤
       (updateThreadStats thread opts).latestMessageAt.getD 0) ∧
    (∀ ts, opts.timestamp = some ts → ts < thread.latestMessageAt.getD 0 →
      (updateThreadStats thread opts).latestMessageAt = thread.latestMessageAt ∧
      (updateThreadStats thread opts).latestMessageId = thread.latestMessageId ∧
      (updateThreadStats thread opts).latestPreview = thread.latestPreview ∧
      (updateThreadStats thread opts).messageCount = thread.messageCount + 1 ∧
      (opts.incrementUnread = true →
        (updateThreadStats thread opts).unreadCount = thread.unreadCount + 1) ∧
      (opts.incrementUnread = false → opts.decrementUnread = true →
        0 < thread.unreadCount →
        (updateThreadStats thread opts).unreadCount = thread.unreadCount - 1) ∧
      (∀ a, opts.fromAddress = some a → thread.participants.contains a = false →
        (updateThreadStats thread opts).participants = thread.participants ++ [a])) ∧
    (∀ ts, opts.timestamp = some ts → thread.latestMessageAt.getD 0 ≤ ts →
      (updateThreadStats thread opts).latestMessageAt = some ts ∧
      (∀ m, opts.messageId = some m →
        (updateThreadStats thread opts).latestMessageId = some m) ∧
      (∀ p, opts.preview = some p →
        (updateThreadStats thread opts).latestPreview = jsPreview p)) := by
  refine ⟨?_, ?_, ?_⟩
  · rw [updateThreadStats_latest]
    cases hts : opts.timestamp with
    | none => exact Nat.le_refl _
    | some ts =>
      by_cases hle : thread.latestMessageAt.getD 0 ≤ ts
      · simp [hle]
      · simp [hle]
  · intro ts hts hlt
    have hle : ¬ thread.latestMessageAt.getD 0 ≤ ts := by omega
    refine ⟨?_, ?_, ?_, updateThreadStats_messageCount thread opts, ?_, ?_, ?_⟩
    · rw [updateThreadStats_latest, hts]
      simp [hle]
    · rw [updateThreadStats_latestId, hts]
      simp [hle]
    · rw [updateThreadStats_latestPreview, hts]
      simp [hle]
    · intro hinc
      rw [updateThreadStats_unread]
      simp [hinc]
    · intro hinc hdec hpos
      rw [updateThreadStats_unread]
      simp [hinc, hdec, hpos]
    · intro a ha hnotin
      rw [updateThreadStats_participants, ha]
      simp at hnotin
      simp [hnotin]
  · intro ts hts hle
    refine ⟨?_, ?_, ?_⟩
    · rw [updateThreadStats_latest, hts]
      simp [hle]
    · intro m hm
      rw [updateThreadStats_latestId, hts, hm]
      simp [hle]
    · intro p hp
      rw [updateThreadStats_latestPreview, hts, hp]
      simp [hle]

/-- C5 witness: an out-of-order message (timestamp 5 against latest 10)
bumps the count but leaves the latest-message fields alone. -/
theorem claim5_witness :
    (updateThreadStats
        { id := "t1", inboxId := "ib1", normalizedSubject := "hello",
          participants := ["a"], messageCount := 2, unreadCount := 1,
          latestMessageId := some "<old>", latestPreview := some "old",
          latestMessageAt := some 10 }
        { messageId := some "<new>", preview := some (some "new"),
          timestamp := some 5, incrementUnread := true }).latestMessageAt
      = some 10 := by
  have h := ((claim5_latest_activity_monotone
    { id := "t1", inboxId := "ib1", normalizedSubject := "hello",
      participants := ["a"], messageCount := 2, unreadCount := 1,
      latestMessageId := some "<old>", latestPreview := some "old",
      latestMessageAt := some 10 }
    { messageId := some "<new>", preview := some (some "new"),
      timestamp := some 5, incrementUnread := true }).2.1
    5 rfl (by decide)).1
  exact h

theorem find?_dropEntry (subs : List (String × List Conn)) (i : String) :
    (busDropEntry subs i).find? (fun p => p.1 = i) = none := by
  induction subs with
  | nil => rfl
  | cons p rest ih =>
    by_cases hp : p.1 = i
    · simpa [busDropEntry, List.filter_cons, hp] using ih
    · simpa [busDropEntry, List.filter_cons, hp, List.find?_cons] using ih

theorem busGet_dropEntry (st : BusState) (i : String) (subs : List (String × List Conn)) :
    busGet { st with subscribers := busDropEntry subs i } i = none := by
  unfold busGet
  rw [find?_dropEntry]
  rfl

theorem find?_setEntry {subs : List (String × List Conn)} {i : String}
    {q : String × List Conn} (h : subs.find? (fun p => p.1 = i) = some q)
    (y : List Conn) :
    (busSetEntry subs i y).find? (fun p => p.1 = i) = some (i, y) := by
  induction subs with
  | nil => simp [List.find?] at h
  | cons p rest ih =>
    by_cases hp : p.1 = i
    · subst hp
      simp [busSetEntry, List.find?_cons]
    · have hstep : busSetEntry (p :: rest) i y = p :: busSetEntry rest i y := by
        simp [busSetEntry, hp]
      rw [List.find?_cons_of_neg rest (by simpa using hp)] at h
      rw [hstep, List.find?_cons_of_neg (busSetEntry rest i y) (by simpa using hp)]
      exact ih h

theorem busGet_setEntry {st : BusState} {i : String} {x : List Conn}
    (h : busGet st i = some x) (y : List Conn) :
    busGet { st with subscribers := busSetEntry st.subscribers i y } i = some y := by
  unfold busGet at h ⊢
  cases hf : st.subscribers.find? (fun p => p.1 = i) with
  | none => rw [hf] at h; simp at h
  | some q =>
    rw [find?_setEntry hf y]
    rfl

/-- C7: `notifyInbox` is a total function (it never throws); publishing
to a mailbox with no registered subscribers is a no-op; within one
publish, exactly the handles whose write does not throw receive the
event (in registration order) while the throwing ones are removed
from the mailbox's set; removal that empties the set removes the
mailbox entry itself. -/
theorem claim7_notifyInbox_broadcast (st : BusState) (inboxId : String)
    (event : InboxEvent) :
    (busGet st inboxId = none → notifyInbox st inboxId event = (st, [])) ∧
    (∀ conns, busGet st inboxId = some conns →
      (conns = [] → notifyInbox st inboxId event = (st, [])) ∧
      ((notifyInbox st inboxId event).2 =
        (conns.filter (fun c => !c.broken)).map (fun c => (c.connId, event))) ∧
      (∀ c ∈ conns, c.broken = false →
        (c.connId, event) ∈ (notifyInbox st inboxId event).2) ∧
      (conns ≠ [] → conns.filter (fun c => !c.broken) = [] →
        busGet (notifyInbox st inboxId event).1 inboxId = none) ∧
      (conns.filter (fun c => !c.broken) ≠ [] →
        busGet (notifyInbox st inboxId event).1 inboxId =
          some (conns.filter (fun c => !c.broken)))) := by
  constructor
  · intro h
    unfold notifyInbox
    rw [h]
  · intro conns hc
    have hnot : notifyInbox st inboxId event =
        (if conns.isEmpty then (st, [])
         else
          let alive := conns.filter (fun c => !c.broken)
          let subs1 :=
            if alive.isEmpty then busDropEntry st.subscribers inboxId
            else busSetEntry st.subscribers inboxId alive
          ({ st with subscribers := subs1 },
           (conns.filter (fun c => !c.broken)).map (fun c => (c.connId, event)))) := by
      unfold notifyInbox
      rw [hc]
    refine ⟨?_, ?_, ?_, ?_, ?_⟩
    · intro he
      rw [hnot]
      simp [he]
    · rw [hnot]
      by_cases he : conns.isEmpty
      · rw [List.isEmpty_iff] at he
        simp [he]
      · simp [he]
    · intro c hmem hbr
      rw [hnot]
      have he : ¬ conns.isEmpty := by
        rw [List.isEmpty_iff]
        intro hnil
        subst hnil
        cases hmem
      simp only [if_neg he]
      exact List.mem_map.mpr ⟨c, List.mem_filter.mpr ⟨hmem, by simp [hbr]⟩, rfl⟩
    · intro hne hdead
      rw [hnot]
      have he : ¬ conns.isEmpty := by simpa [List.isEmpty_iff] using hne
      simp only [if_neg he, hdead]
      simp only [List.isEmpty_nil, if_pos]
      exact busGet_dropEntry st inboxId st.subscribers
    · intro halive
      rw [hnot]
      have he : ¬ conns.isEmpty := by
        rw [List.isEmpty_iff]
        intro hnil
        subst hnil
        simp at halive
      have he2 : ¬ (conns.filter (fun c => !c.broken)).isEmpty := by
        simpa [List.isEmpty_iff] using halive
      simp only [if_neg he, if_neg he2]
      exact busGet_setEntry hc _

/-- C7 witness: one live and one dead handle — the live one receives,
the dead one is dropped, the entry survives with the live handle. -/
theorem claim7_witness :
    busGet
      (notifyInbox
        { subscribers :=
            [("ib1", [{ connId := 1, userId := "u1", broken := false },
                      { connId := 2, userId := "u2", broken := true }])]
          heartbeatRunning := true } "ib1" sampleEvent).1 "ib1"
      = some [{ connId := 1, userId := "u1", broken := false }] := by
  have h := ((claim7_notifyInbox_broadcast
    { subscribers :=
        [("ib1", [{ connId := 1, userId := "u1", broken := false },
                  { connId := 2, userId := "u2", broken := true }])]
      heartbeatRunning := true } "ib1" sampleEvent).2
    [{ connId := 1, userId := "u1", broken := false },
     { connId := 2, userId := "u2", broken := true }] (by decide)).2.2.2.2
  simpa using h (by decide)

theorem subscribe_ne_nil (st : BusState) (i : String) (c : Conn) :
    (subscribe st i c).subscribers ≠ [] := by
  unfold subscribe
  cases hb : busGet st i with
  | none => simp
  | some conns =>
    have hne : st.subscribers ≠ [] := by
      intro hnil
      unfold busGet at hb
      rw [hnil] at hb
      simp at hb
    intro hm
    exact hne (by simpa [busSetEntry] using hm)

theorem unsubscribe_heartbeat_eq (st : BusState) (i : String) (c : Conn) :
    (unsubscribe st i c).heartbeatRunning =
      (if (unsubscribe st i c).subscribers = [] then false else st.heartbeatRunning) := rfl

theorem notifyInbox_heartbeat (st : BusState) (i : String) (e : InboxEvent) :
    (notifyInbox st i e).1.heartbeatRunning = st.heartbeatRunning := by
  unfold notifyInbox
  cases hb : busGet st i with
  | none => rfl
  | some conns =>
    by_cases he : conns.isEmpty <;> simp [he]

/-- C4 counterexample: a reachable bus state — one subscriber whose
write throws — where the dead-handle cleanup of a publish leaves the
registry globally empty while the heartbeat timer keeps running,
refuting the claimed iff (and its publish-cleanup clause). -/
theorem claim4_counterexample :
    (notifyInbox (subscribe busInit "ib1" { connId := 0, userId := "u", broken := true })
      "ib1" sampleEvent).1.subscribers = [] ∧
    (notifyInbox (subscribe busInit "ib1" { connId := 0, userId := "u", broken := true })
      "ib1" sampleEvent).1.heartbeatRunning = true := by decide

/-- C4 (amended): `subscribe` always leaves the timer running and the
registry non-empty; `unsubscribe` stops the timer exactly when it
leaves the registry globally empty and otherwise preserves the flag;
dead-handle cleanup during `notifyInbox` and during a heartbeat sweep
never changes the timer flag — even when it empties the registry, so
the timer can keep running on an empty registry until the next
subscribe/unsubscribe. -/
theorem claim4_heartbeat_amended (st : BusState) (inboxId : String) (c : Conn)
    (event : InboxEvent) :
    ((subscribe st inboxId c).heartbeatRunning = true) ∧
    ((subscribe st inboxId c).subscribers ≠ []) ∧
    ((unsubscribe st inboxId c).subscribers = [] →
      (unsubscribe st inboxId c).heartbeatRunning = false) ∧
    ((unsubscribe st inboxId c).subscribers ≠ [] →
      (unsubscribe st inboxId c).heartbeatRunning = st.heartbeatRunning) ∧
    ((notifyInbox st inboxId event).1.heartbeatRunning = st.heartbeatRunning) ∧
    ((sendHeartbeat st).1.heartbeatRunning = st.heartbeatRunning) := by
  refine ⟨rfl, subscribe_ne_nil st inboxId c, ?_, ?_,
    notifyInbox_heartbeat st inboxId event, rfl⟩
  · intro h
    rw [unsubscribe_heartbeat_eq, if_pos h]
  · intro h
    rw [unsubscribe_heartbeat_eq, if_neg h]

/-- C4 witness: unsubscribing the last handle stops the timer. -/
theorem claim4_witness :
    (unsubscribe (subscribe busInit "ib1" { connId := 0, userId := "u", broken := false })
      "ib1" { connId := 0, userId := "u", broken := false }).heartbeatRunning = false := by
  have h := (claim4_heartbeat_amended
    (subscribe busInit "ib1" { connId := 0, userId := "u", broken := false })
    "ib1" { connId := 0, userId := "u", broken := false } sampleEvent).2.2.1
  exact h (by decide)

/-- C1 (refuted by the code): an ingestion that passes every gate —
valid signature, matching domain, existing mailbox — returns `200`
and persists the message row, yet the action performs no
`notifyInbox` publication at all (the notify step is an
unimplemented TODO in the route, although the event bus, the SSE
endpoint and the client hook all exist), so no subscribed handle
receives an event. -/
theorem claim1_accepted_ingestion_publishes_nothing :
    (webhookAction sampleEnv sampleState sampleFresh 1000000 sampleAccepted).status = 200 ∧
    (webhookAction sampleEnv sampleState sampleFresh 1000000 sampleAccepted).db.emails
      ≠ [] ∧
    (webhookAction sampleEnv sampleState sampleFresh 1000000 sampleAccepted).published
      = [] := by
  decide

theorem processPayload_status (env : GatewayEnv) (st : GatewayState)
    (fresh : FreshIds) (now : Nat) (payload : WebhookPayload) :
    (processPayload env st fresh now payload).status = 400 ∨
    (processPayload env st fresh now payload).status = 404 ∨
    (processPayload env st fresh now payload).status = 200 := by
  unfold processPayload
  dsimp only
  split
  · left
    rfl
  · split
    · right
      left
      rfl
    · right
      right
      rfl

/-- C3 counterexample: a non-POST request with a missing signature is
answered `405`, not `401`, so the claimed iff over every inbound
request fails. -/
theorem claim3_counterexample :
    (webhookAction sampleEnv sampleState sampleFresh 0
      { method := "GET", signature := none, body := "" }).status = 405 ∧
    (webhookAction sampleEnv sampleState sampleFresh 0
      { method := "GET", signature := none, body := "" }).status ≠ 401 ∧
    ({ method := "GET", signature := none, body := "" } : WebhookRequest).signature
      = none := by
  decide

/-- C3 (amended): for every POST request, the gateway returns `401` if
and only if the signature header is missing or differs from the
base64 HMAC-SHA256 of the exact raw body under the shared secret
(non-POST requests are answered `405` before the signature check);
on such a rejection the database is untouched and nothing is
published. -/
theorem claim3_post_401_iff_bad_signature (env : GatewayEnv) (st : GatewayState)
    (fresh : FreshIds) (now : Nat) (req : WebhookRequest)
    (hm : req.method = "POST") :
    ((webhookAction env st fresh now req).status = 401 ↔
      (req.signature = none ∨ req.signature ≠ some (env.hmac req.body env.secret))) ∧
    ((webhookAction env st fresh now req).status = 401 →
      (webhookAction env st fresh now req).db = st.db ∧
      (webhookAction env st fresh now req).published = []) := by
  have hmethod : ¬ req.method ≠ "POST" := by simp [hm]
  unfold webhookAction
  rw [if_neg hmethod]
  cases hs : req.signature with
  | none => simp
  | some sig =>
    dsimp only
    by_cases hsig : sig ≠ env.hmac req.body env.secret
    · rw [if_pos hsig]
      simp [hsig]
    · rw [if_neg hsig]
      push_neg at hsig
      subst hsig
      cases hp : env.parse req.body with
      | none => simp
      | some payload =>
        dsimp only
        have h3 := processPayload_status env st fresh now payload
        constructor
        · constructor
          · intro h401
            omega
          · intro hor
            rcases hor with h | h
            · exact absurd h (by simp)
            · exact absurd rfl h
        · intro h401
          omega

/-- C3 witness: a POST with a wrong signature is rejected 401 with the
database untouched. -/
theorem claim3_witness :
    (webhookAction sampleEnv sampleState sampleFresh 0
      { method := "POST", signature := some "WRONG", body := "BODY" }).status = 401 := by
  have h := (claim3_post_401_iff_bad_signature sampleEnv sampleState sampleFresh 0
    { method := "POST", signature := some "WRONG", body := "BODY" } rfl).1
  exact h.mpr (Or.inr (by decide))

/-- A thread row used by the C2 witness. -/
def wThread : ThreadRow :=
  { id := "t1", inboxId := "ib1", normalizedSubject := "hello", participants := [],
    messageCount := 1, unreadCount := 0, latestMessageId := none, latestPreview := none,
    latestMessageAt := some 1000 }

/-- C2: `findThreadForEmail` resolves in priority order — first the
thread of the first referenced identifier (taken in reference order)
whose stored received or sent message in the same mailbox has a
thread assigned; otherwise, for a non-empty normalized subject, the
most recently active thread of the same mailbox with the identical
normalized subject whose `latestMessageAt` lies in the inclusive
trailing 7-day window anchored at `now` (the clock instant the
gateway also assigns as the new message's own timestamp); otherwise
`none`.  An empty normalized subject never matches by subject; the
boundary is inclusive at exactly 7 days and exclusive at
7 days + 1 second. -/
theorem claim2_thread_resolution (db : ThreadingDb) (inboxId : String)
    (msgId : Option String) (headers : List (String × String))
    (subject : Option String) (now L L2 : Nat) (t t2 : ThreadRow) :
    (∀ tid, findByReference db inboxId (extractMessageIds headers) = some tid →
      findThreadForEmail db inboxId msgId headers subject now = some tid) ∧
    (findByReference db inboxId (extractMessageIds headers) = none →
      normalizeSubject subject = "" →
      findThreadForEmail db inboxId msgId headers subject now = none) ∧
    (findByReference db inboxId (extractMessageIds headers) = none →
      normalizeSubject subject ≠ "" →
      db.threads = [t] →
      t.inboxId = inboxId → t.normalizedSubject = normalizeSubject subject →
      t.latestMessageAt = some L → now = L + SUBJECT_MATCH_WINDOW →
      findThreadForEmail db inboxId msgId headers subject now = some t.id) ∧
    (findByReference db inboxId (extractMessageIds headers) = none →
      db.threads = [t] →
      t.latestMessageAt = some L → now = L + SUBJECT_MATCH_WINDOW + 1 →
      findThreadForEmail db inboxId msgId headers subject now = none) ∧
    (findByReference db inboxId (extractMessageIds headers) = none →
      normalizeSubject subject ≠ "" →
      db.threads = [t, t2] →
      t.inboxId = inboxId → t.normalizedSubject = normalizeSubject subject →
      t2.inboxId = inboxId → t2.normalizedSubject = normalizeSubject subject →
      t.latestMessageAt = some L → now ≤ L + SUBJECT_MATCH_WINDOW →
      t2.latestMessageAt = some L2 → now ≤ L2 + SUBJECT_MATCH_WINDOW →
      L < L2 →
      findThreadForEmail db inboxId msgId headers subject now = some t2.id) := by
  refine ⟨?_, ?_, ?_, ?_, ?_⟩
  · intro tid h
    unfold findThreadForEmail
    dsimp only
    rw [h]
  · intro h hsub
    unfold findThreadForEmail
    dsimp only
    rw [h]
    simp [hsub]
  · intro h hsub ht hin hns hlat hnow
    unfold findThreadForEmail
    dsimp only
    rw [h, if_pos hsub]
    unfold subjectMatch
    rw [ht]
    have hc : now ≤ L + SUBJECT_MATCH_WINDOW := by omega
    simp [hin, hns, hlat, hc]
  · intro h ht hlat hnow
    unfold findThreadForEmail
    dsimp only
    rw [h]
    dsimp only
    split
    · unfold subjectMatch
      rw [ht]
      have hc : ¬ (now ≤ L + SUBJECT_MATCH_WINDOW) := by omega
      simp [hlat, hc]
    · rfl
  · intro h hsub ht hin hns hin2 hns2 hlat hwin hlat2 hwin2 hlt
    unfold findThreadForEmail
    dsimp only
    rw [h, if_pos hsub]
    unfold subjectMatch
    rw [ht]
    simp [hin, hns, hin2, hns2, hlat, hlat2, hwin, hwin2, hlt]

/-- C2 witness: the inclusive boundary — a thread whose latest activity
is exactly 7 days before the new message's timestamp still matches
by normalized subject. -/
theorem claim2_witness :
    findThreadForEmail { emails := [], sentEmails := [], threads := [wThread] }
      "ib1" none [] (some "Re: Hello") (1000 + SUBJECT_MATCH_WINDOW) = some "t1" := by
  have h := (claim2_thread_resolution
    { emails := [], sentEmails := [], threads := [wThread] }
    "ib1" none [] (some "Re: Hello") (1000 + SUBJECT_MATCH_WINDOW) 1000 0
    wThread wThread).2.2.1
  exact h rfl (by decide) rfl rfl (by decide) rfl rfl

end Innbox
